import Mathlib

/-!
Verification of the fund ledger engine of `bank_app.py` (function
`recalculate_fund`, lines 86-140), shallowly embedded in Lean 4.

Modelling conventions:
* Python/pandas floats are modelled as `NF`: either a rational number or NaN.
  The engine's arithmetic on possibly-NaN values (missing NAV entries become
  `np.nan`) is mirrored by NaN-propagating operations on `NF`; Python's
  `x > 0` comparison is false for NaN, and `max(nan, 0) = nan` because
  CPython's `max(a, b)` keeps `a` unless `b > a`.
* A transactions dataframe row is a `RawTxn`; its `Amount` cell is
  `Option ℚ` (`none` models a NaN / non-numeric cell).  Line 88's in-place
  `pd.to_numeric(..., errors="coerce").fillna(0.0)` is `coerceTx` /
  `mutatedTransactions`.  The `Amount` column is assumed present (every
  caller builds the dataframe with it).
* The dicts `user_share_balances` / `nav_per_share` are modelled as a key
  set plus a total function; `dGet` is Python's `dict.get(u, 0.0)`.
-/

/-- A float value of the engine: a rational number or NaN. -/
inductive NF where
  | nan : NF
  | num : ℚ → NF
deriving DecidableEq

namespace NF

/-- Python truth of `x > 0` for a possibly-NaN float: NaN compares false. -/
def isPos : NF → Bool
  | nan => false
  | num q => decide (0 < q)

/-- `x / t` for a rational `t` (only used with `t ≠ 0`); NaN propagates. -/
def divQ : NF → ℚ → NF
  | nan, _ => nan
  | num q, t => num (q / t)

/-- `q * x` with rational left factor; NaN propagates (IEEE: `0 * NaN = NaN`). -/
def mulQ : ℚ → NF → NF
  | _, nan => nan
  | q, num p => num (q * p)

/-- `x * c` with rational right factor; NaN propagates. -/
def scale : NF → ℚ → NF
  | nan, _ => nan
  | num q, c => num (q * c)

/-- Unary minus; `-NaN` is NaN. -/
def neg : NF → NF
  | nan => nan
  | num q => num (-q)

/-- Float subtraction; NaN propagates. -/
def sub : NF → NF → NF
  | nan, _ => nan
  | num _, nan => nan
  | num a, num b => num (a - b)

/-- `x - q` with rational subtrahend. -/
def subQ (a : NF) (q : ℚ) : NF := a.sub (num q)

/-- `x + q` with rational addend; NaN propagates. -/
def addQ : NF → ℚ → NF
  | nan, _ => nan
  | num a, q => num (a + q)

/-- CPython `max(x, 0)`: the scan starts at `x`, and `0 > NaN` is false,
so `max(NaN, 0) = NaN`. -/
def pymax0 : NF → NF
  | nan => nan
  | num q => num (max q 0)

/-- Python truth of `x < 0`: NaN compares false. -/
def isNeg : NF → Bool
  | nan => false
  | num q => decide (q < 0)

end NF

/-- A row of the transactions dataframe as passed to `recalculate_fund`,
before the line-88 numeric coercion: the `Amount` cell may be non-numeric
or NaN (`none`). -/
structure RawTxn where
  date : String
  user : String
  ttype : String
  amount : Option ℚ
deriving DecidableEq

/-- A transactions row after line 88 (`pd.to_numeric(...).fillna(0.0)`):
the amount is numeric, with non-numeric/NaN cells replaced by `0.0`. -/
structure Txn where
  date : String
  user : String
  ttype : String
  amount : ℚ
deriving DecidableEq

/-- Line 88 applied to one row: non-numeric/NaN amounts become `0.0`. -/
def coerceTx (t : RawTxn) : Txn :=
  ⟨t.date, t.user, t.ttype, t.amount.getD 0⟩

/-- The value held by the `transactions` argument after `recalculate_fund`
returns: line 88 wrote the coerced `Amount` column back into the caller's
dataframe. -/
def mutatedTransactions (l : List RawTxn) : List RawTxn :=
  l.map fun t => ⟨t.date, t.user, t.ttype, some (t.amount.getD 0)⟩

/-- A row appended to `share_ledger` (lines 119-122). -/
structure LedgerEntry where
  date : String
  user : String
  ttype : String
  amount : NF
  shares : ℚ
  navShare : NF
deriving DecidableEq

/-- Python `dict.get(u, 0.0)` on the balances dict modelled as a key set
plus a total function. -/
def dGet (keys : Finset String) (f : String → ℚ) (u : String) : ℚ :=
  if u ∈ keys then f u else 0

/-- `nav_history.get(d)`: first matching key of the association list
(dict keys are unique, so first-match agrees with the dict). -/
def navLookup : List (String × ℚ) → String → Option ℚ
  | [], _ => none
  | (k, v) :: rest, d => if k = d then some v else navLookup rest d

/-- Line 99: `float(nav_history.get(d_str, np.nan))`. -/
def navOf (nav : List (String × ℚ)) (d : String) : NF :=
  match navLookup nav d with
  | some q => NF.num q
  | none => NF.nan

/-- Lines 107/111: `amt / nav_per_share_today if nav_per_share_today > 0
else 0`; the guard is Python `>`, false on NaN and on non-positive prices. -/
def sharesFor (amt : ℚ) (price : NF) : ℚ :=
  match price with
  | NF.nan => 0
  | NF.num q => if 0 < q then amt / q else 0

/-- The mutable state of the day loop of `recalculate_fund`
(lines 93-96): shares outstanding, the balances dict, the per-day
`nav_per_share` dict being built, and the growing `share_ledger`. -/
structure SimState where
  totalShares : ℚ
  keys : Finset String
  bal : String → ℚ
  navPerShare : String → Option NF
  ledger : List LedgerEntry

/-- Line 101 (and, with the post-transaction state, line 123):
`nav / total_shares if total_shares > 0 else 1.0`. -/
def dayPrice (nav : List (String × ℚ)) (s : SimState) (d : String) : NF :=
  if 0 < s.totalShares then (navOf nav d).divQ s.totalShares else NF.num 1

/-- Lines 102-122: process one transaction row at the day's intra-day
price.  Deposits mint `sharesFor amt price` shares; withdrawals clamp to
the held balance, recompute the paid-out amount, and record its negation;
any other type is skipped. -/
def applyTx (d : String) (price : NF) (s : SimState) (t : Txn) : SimState :=
  if t.ttype = "Deposit" then
    let shares := sharesFor t.amount price
    { s with
      totalShares := s.totalShares + shares
      keys := insert t.user s.keys
      bal := Function.update s.bal t.user (dGet s.keys s.bal t.user + shares)
      ledger := s.ledger ++ [⟨d, t.user, t.ttype, NF.num t.amount, shares, price⟩] }
  else if t.ttype = "Withdrawal" then
    let shares := min (sharesFor t.amount price) (dGet s.keys s.bal t.user)
    let amtOut := NF.mulQ shares price
    { s with
      totalShares := s.totalShares - shares
      keys := insert t.user s.keys
      bal := Function.update s.bal t.user (dGet s.keys s.bal t.user - shares)
      ledger := s.ledger ++ [⟨d, t.user, t.ttype, amtOut.neg, shares, price⟩] }
  else s

/-- Lines 97-123: one iteration of the day loop — price the day from the
pre-transaction `total_shares`, fold the day's transactions, then record
the end-of-day `nav_per_share[d]` from the post-transaction state. -/
def processDay (txs : List Txn) (nav : List (String × ℚ)) (s : SimState) (d : String) :
    SimState :=
  let price := dayPrice nav s d
  let today := txs.filter fun t => decide (t.date = d)
  let s₂ := today.foldl (applyTx d price) s
  { s₂ with
    navPerShare := fun x =>
      if x = d then
        some (if 0 < s₂.totalShares then (navOf nav d).divQ s₂.totalShares else NF.num 1)
      else s₂.navPerShare x }

/-- Lines 93-96: the initial loop state; balances start at `0.0` for every
distinct non-empty user appearing in the transactions. -/
def initState (txs : List Txn) : SimState :=
  { totalShares := 0
    keys := ((txs.map Txn.user).filter fun u => decide (u ≠ "")).toFinset
    bal := fun _ => 0
    navPerShare := fun _ => none
    ledger := [] }

/-- The state after the day loop has consumed the given dates. -/
def simUpTo (txs : List Txn) (nav : List (String × ℚ)) (ds : List String) : SimState :=
  ds.foldl (processDay txs nav) (initState txs)

/-- The state in the middle of a day: the dates `ds₁` fully processed,
then the first `n` transactions of day `d` applied at `d`'s intra-day
price. -/
def midState (txs : List Txn) (nav : List (String × ℚ)) (ds₁ : List String)
    (d : String) (n : ℕ) : SimState :=
  let s := simUpTo txs nav ds₁
  ((txs.filter fun t => decide (t.date = d)).take n).foldl
    (applyTx d (dayPrice nav s d)) s

/-- Line 90: `sorted(set(nav_history.keys()) | set(transactions["Date"]))`.
Deduplicate the concatenated keys and sort ascending; on a duplicate-free
list this is exactly the sorted set. -/
def allDates (txs : List Txn) (nav : List (String × ℚ)) : List String :=
  List.insertionSort (· ≤ ·) ((nav.map Prod.fst ++ txs.map Txn.date).dedup)

/-- Line 127: per-user sum of the (coerced) input `Deposit` amounts, with
`dict.get(u, 0.0)` semantics for users with no deposits. -/
def depositSum (txs : List Txn) (u : String) : ℚ :=
  ((txs.filter fun t => decide (t.ttype = "Deposit" ∧ t.user = u)).map Txn.amount).sum

/-- Lines 128-129: the per-user sum of the (coerced) input `Withdrawal`
amounts, negated (`{u: -v ...}`), with `dict.get(u, 0.0)` semantics. -/
def withdrawalSum (txs : List Txn) (u : String) : ℚ :=
  -((txs.filter fun t => decide (t.ttype = "Withdrawal" ∧ t.user = u)).map Txn.amount).sum

/-- The tuple returned by `recalculate_fund` (line 140).  The per-user
dicts share the key set `userKeys` (the keys of `user_share_balances`);
the functions carry their values on those keys. -/
structure FundResult where
  navPerShare : String → Option NF
  userKeys : Finset String
  userShares : String → ℚ
  userValue : String → NF
  afterFees : String → NF
  profit : String → NF
  ledger : List LedgerEntry
  feeWithdrawal : String → NF
  feeProfit : String → NF

/-- Line 92: the all-empty result returned when `all_dates` is empty. -/
def emptyResult : FundResult :=
  { navPerShare := fun _ => none
    userKeys := ∅
    userShares := fun _ => 0
    userValue := fun _ => NF.num 0
    afterFees := fun _ => NF.num 0
    profit := fun _ => NF.num 0
    ledger := []
    feeWithdrawal := fun _ => NF.num 0
    feeProfit := fun _ => NF.num 0 }

/-- Lines 90-140 of `recalculate_fund`, after the line-88 coercion: the
day loop followed by the valuation, aggregation and fee stages. -/
def computeFund (txs : List Txn) (nav : List (String × ℚ))
    (withdraw_fee profit_fee : ℚ) : FundResult :=
  let ds := allDates txs nav
  if ds = [] then emptyResult
  else
    let fin := simUpTo txs nav ds
    let currentNavShare := (fin.navPerShare (ds.getLastD "")).getD (NF.num 1)
    let userSharesF := fun u => dGet fin.keys fin.bal u
    let userValueF := fun u => NF.mulQ (userSharesF u) currentNavShare
    let profitF := fun u =>
      ((userValueF u).subQ (depositSum txs u)).addQ (withdrawalSum txs u)
    let feeW := fun u => (userValueF u).scale withdraw_fee
    let feeP := fun u => ((profitF u).pymax0).scale profit_fee
    { navPerShare := fin.navPerShare
      userKeys := fin.keys
      userShares := userSharesF
      userValue := userValueF
      afterFees := fun u => ((userValueF u).sub (feeW u)).sub (feeP u)
      profit := profitF
      ledger := fin.ledger
      feeWithdrawal := feeW
      feeProfit := feeP }

/-- `recalculate_fund` (lines 86-140): coerce the `Amount` column (line
88), then run the engine. -/
def recalculate_fund (rtxs : List RawTxn) (nav : List (String × ℚ))
    (withdraw_fee profit_fee : ℚ) : FundResult :=
  computeFund (rtxs.map coerceTx) nav withdraw_fee profit_fee

/-- Modelled from the spec (section 4.1 steps 5-6), for comparison with the
code's `profit`: `user_value - deposit_sum + withdrawal_sum` where
`withdrawal_sum` is the sum of the absolute values of the user's
Withdrawal amounts. -/
def profitSpec (res : FundResult) (txs : List Txn) (u : String) : NF :=
  ((res.userValue u).subQ (depositSum txs u)).addQ
    (((txs.filter fun t => decide (t.ttype = "Withdrawal" ∧ t.user = u)).map
      fun t => |t.amount|).sum)

/-- The sum of the values of the `user_share_balances` dict. -/
def sumBal (s : SimState) : ℚ := ∑ u ∈ s.keys, s.bal u

/-- Every value of the balances dict (read with `dict.get(u, 0.0)`) is
non-negative. -/
def NonnegBal (s : SimState) : Prop := ∀ u, 0 ≤ dGet s.keys s.bal u

/-- Two simulation states that agree on everything the rest of the run can
observe: shares outstanding, every `dict.get` balance read, and the
`nav_per_share` dict (the ledger and the raw key set may differ). -/
def SimRel (s t : SimState) : Prop :=
  t.totalShares = s.totalShares
  ∧ (∀ v, dGet t.keys t.bal v = dGet s.keys s.bal v)
  ∧ t.navPerShare = s.navPerShare

/-! ### Concrete inputs used by the per-claim witnesses and counterexamples -/

/-- C1: deposit 100, then withdraw the same 100 at an unchanged price 1.0. -/
def c1txs : List RawTxn :=
  [⟨"2025-05-18", "alice", "Deposit", some 100⟩,
   ⟨"2025-05-19", "alice", "Withdrawal", some 100⟩]

/-- C1: fund value 100 on both days, so the price stays 1.0. -/
def c1nav : List (String × ℚ) := [("2025-05-18", 100), ("2025-05-19", 100)]

/-- C2: a deposit and a partial withdrawal on one day. -/
def c2txs : List RawTxn :=
  [⟨"2025-05-18", "alice", "Deposit", some 100⟩,
   ⟨"2025-05-18", "alice", "Withdrawal", some 40⟩]

/-- C2: NAV for the single day. -/
def c2nav : List (String × ℚ) := [("2025-05-18", 100)]

/-- C3: a deposit, then a withdrawal on a day with no NAV entry. -/
def c3txs : List RawTxn :=
  [⟨"2025-05-18", "alice", "Deposit", some 100⟩,
   ⟨"2025-05-19", "alice", "Withdrawal", some 50⟩]

/-- C3: NAV present only for the first day. -/
def c3nav : List (String × ℚ) := [("2025-05-18", 100)]

/-- C4: scenario D — deposit 50, then request a withdrawal priced at 60
shares' worth. -/
def c4txs : List RawTxn :=
  [⟨"2025-05-18", "alice", "Deposit", some 50⟩,
   ⟨"2025-05-18", "alice", "Withdrawal", some 60⟩]

/-- C4: NAV for the single day. -/
def c4nav : List (String × ℚ) := [("2025-05-18", 50)]


/-- C6: one deposit on the only day, with the day's NAV equal to twice the
deposit, so the end-of-day recorded price differs from the execution price. -/
def c6txs : List RawTxn := [⟨"2025-05-18", "alice", "Deposit", some 100⟩]

/-- C6: NAV 200 on the single day. -/
def c6nav : List (String × ℚ) := [("2025-05-18", 200)]

/-- C7: one deposit so that the user appears in the output. -/
def c7txs : List RawTxn := [⟨"2025-05-18", "alice", "Deposit", some 100⟩]

/-- C7: NAV for the single day. -/
def c7nav : List (String × ℚ) := [("2025-05-18", 100)]

/-- C9: a first-day deposit, then transactions on a day with no NAV entry. -/
def c9txs : List RawTxn :=
  [⟨"2025-05-18", "alice", "Deposit", some 100⟩,
   ⟨"2025-05-19", "alice", "Withdrawal", some 50⟩]

/-- C9: NAV present only for the first day. -/
def c9nav : List (String × ℚ) := [("2025-05-18", 100)]

/-- C10: a first-day deposit by alice and a second-day deposit by bob; the
second day's NAV is recorded as 0 while shares are outstanding, so the
second day's intra-day price is 0. -/
def c10txs : List RawTxn :=
  [⟨"2025-05-18", "alice", "Deposit", some 100⟩,
   ⟨"2025-05-19", "bob", "Deposit", some 50⟩]

/-- C10: NAV 100 on day one, 0 on day two. -/
def c10nav : List (String × ℚ) := [("2025-05-18", 100), ("2025-05-19", 0)]

/-- C10: the extra deposit appended to the history, dated on the day with
a non-positive price. -/
def c10extra : RawTxn := ⟨"2025-05-19", "bob", "Deposit", some 30⟩

/-! ### Dictionary helper lemmas -/

lemma dGet_update (keys : Finset String) (bal : String → ℚ) (u : String) (v : ℚ)
    (x : String) :
    dGet (insert u keys) (Function.update bal u v) x
      = if x = u then v else dGet keys bal x := by
  by_cases hx : x = u
  · subst hx; simp [dGet]
  · simp [dGet, Function.update_noteq hx, hx, Finset.mem_insert]

lemma dGet_nonneg_of (keys : Finset String) (bal : String → ℚ)
    (h : ∀ u ∈ keys, 0 ≤ bal u) (u : String) : 0 ≤ dGet keys bal u := by
  unfold dGet
  split
  · exact h u (by assumption)
  · exact le_refl 0

lemma sum_insert_update (keys : Finset String) (bal : String → ℚ) (u : String) (v : ℚ) :
    ∑ x ∈ insert u keys, Function.update bal u v x
      = (∑ x ∈ keys, bal x) - dGet keys bal u + v := by
  by_cases h : u ∈ keys
  · rw [Finset.insert_eq_self.2 h, Finset.sum_update_of_mem h,
      Finset.sdiff_singleton_eq_erase]
    have h2 : bal u + ∑ x ∈ keys.erase u, bal x = ∑ x ∈ keys, bal x :=
      Finset.add_sum_erase keys bal h
    simp only [dGet, if_pos h]
    linarith
  · rw [Finset.sum_insert h]
    have hcongr : ∀ x ∈ keys, Function.update bal u v x = bal x := by
      intro x hx
      have hxu : x ≠ u := by
        intro e
        subst e
        exact h hx
      exact Function.update_noteq hxu _ _
    rw [Finset.sum_congr rfl hcongr, Function.update_same]
    simp only [dGet, if_neg h]
    ring

/-! ### Share conservation -/

lemma applyTx_sumBal (d : String) (p : NF) (s : SimState) (t : Txn)
    (h : sumBal s = s.totalShares) :
    sumBal (applyTx d p s t) = (applyTx d p s t).totalShares := by
  unfold applyTx
  by_cases h1 : t.ttype = "Deposit"
  · simp only [if_pos h1, sumBal, sum_insert_update]
    simp only [sumBal] at h
    rw [h]; ring
  · by_cases h2 : t.ttype = "Withdrawal"
    · simp only [if_neg h1, if_pos h2, sumBal, sum_insert_update]
      simp only [sumBal] at h
      rw [h]; ring
    · simpa [if_neg h1, if_neg h2] using h

lemma foldl_applyTx_sumBal (d : String) (p : NF) :
    ∀ (l : List Txn) (s : SimState), sumBal s = s.totalShares →
      sumBal (l.foldl (applyTx d p) s) = (l.foldl (applyTx d p) s).totalShares
  | [], _, h => h
  | t :: l, s, h => foldl_applyTx_sumBal d p l _ (applyTx_sumBal d p s t h)

lemma processDay_sumBal (txs : List Txn) (nav : List (String × ℚ)) (s : SimState)
    (d : String) (h : sumBal s = s.totalShares) :
    sumBal (processDay txs nav s d) = (processDay txs nav s d).totalShares := by
  unfold processDay
  exact foldl_applyTx_sumBal _ _ _ _ h

lemma foldl_processDay_sumBal (txs : List Txn) (nav : List (String × ℚ)) :
    ∀ (ds : List String) (s : SimState), sumBal s = s.totalShares →
      sumBal (ds.foldl (processDay txs nav) s) = (ds.foldl (processDay txs nav) s).totalShares
  | [], _, h => h
  | d :: ds, s, h => foldl_processDay_sumBal txs nav ds _ (processDay_sumBal txs nav s d h)

lemma initState_sumBal (txs : List Txn) : sumBal (initState txs) = (initState txs).totalShares := by
  simp [sumBal, initState]

/-- Claim C2: at every simulated day boundary of `recalculate_fund` (after all
transactions of each date of `all_dates` up to that point have been
processed), the sum over all users of `user_share_balances` equals
`total_shares`, for every transaction history and NAV history. -/
theorem claim2_share_conservation (rtxs : List RawTxn) (nav : List (String × ℚ))
    (ds₁ ds₂ : List String)
    (hsplit : allDates (rtxs.map coerceTx) nav = ds₁ ++ ds₂) :
    ∑ u ∈ (simUpTo (rtxs.map coerceTx) nav ds₁).keys,
        (simUpTo (rtxs.map coerceTx) nav ds₁).bal u
      = (simUpTo (rtxs.map coerceTx) nav ds₁).totalShares :=
  foldl_processDay_sumBal (rtxs.map coerceTx) nav ds₁ (initState (rtxs.map coerceTx))
    (initState_sumBal (rtxs.map coerceTx))

/-! ### Non-negative balances -/

lemma sharesFor_nonneg (amt : ℚ) (p : NF) (h : 0 ≤ amt) : 0 ≤ sharesFor amt p := by
  unfold sharesFor
  cases p with
  | nan => exact le_refl 0
  | num q =>
    dsimp only
    split
    · positivity
    · exact le_refl 0

lemma applyTx_nonnegBal (d : String) (p : NF) (s : SimState) (t : Txn)
    (h : NonnegBal s) (ha : 0 ≤ t.amount) : NonnegBal (applyTx d p s t) := by
  unfold applyTx
  by_cases h1 : t.ttype = "Deposit"
  · simp only [if_pos h1]
    intro x
    rw [dGet_update]
    split
    · have := sharesFor_nonneg t.amount p ha
      have := h t.user
      linarith
    · exact h x
  · by_cases h2 : t.ttype = "Withdrawal"
    · simp only [if_neg h1, if_pos h2]
      intro x
      rw [dGet_update]
      split
      · have hmin : min (sharesFor t.amount p) (dGet s.keys s.bal t.user)
            ≤ dGet s.keys s.bal t.user := min_le_right _ _
        linarith
      · exact h x
    · simpa [if_neg h1, if_neg h2] using h

lemma foldl_applyTx_nonnegBal (d : String) (p : NF) :
    ∀ (l : List Txn) (s : SimState), NonnegBal s → (∀ t ∈ l, 0 ≤ t.amount) →
      NonnegBal (l.foldl (applyTx d p) s)
  | [], _, h, _ => h
  | t :: l, s, h, ha =>
    foldl_applyTx_nonnegBal d p l _ (applyTx_nonnegBal d p s t h (ha t (by simp)))
      (fun t' ht' => ha t' (by simp [ht']))

lemma processDay_nonnegBal (txs : List Txn) (nav : List (String × ℚ)) (s : SimState)
    (d : String) (h : NonnegBal s) (ha : ∀ t ∈ txs, 0 ≤ t.amount) :
    NonnegBal (processDay txs nav s d) := by
  unfold processDay
  intro u
  dsimp only
  exact foldl_applyTx_nonnegBal _ _ _ _ h
    (fun t ht => ha t (List.mem_of_mem_filter ht)) u

lemma foldl_processDay_nonnegBal (txs : List Txn) (nav : List (String × ℚ))
    (ha : ∀ t ∈ txs, 0 ≤ t.amount) :
    ∀ (ds : List String) (s : SimState), NonnegBal s →
      NonnegBal (ds.foldl (processDay txs nav) s)
  | [], _, h => h
  | d :: ds, s, h =>
    foldl_processDay_nonnegBal txs nav ha ds _ (processDay_nonnegBal txs nav s d h ha)

lemma initState_nonnegBal (txs : List Txn) : NonnegBal (initState txs) := by
  intro u
  unfold initState dGet
  dsimp only
  split <;> exact le_refl 0

lemma simUpTo_nonnegBal (txs : List Txn) (nav : List (String × ℚ)) (ds : List String)
    (ha : ∀ t ∈ txs, 0 ≤ t.amount) : NonnegBal (simUpTo txs nav ds) :=
  foldl_processDay_nonnegBal txs nav ha ds _ (initState_nonnegBal txs)

lemma midState_nonnegBal (txs : List Txn) (nav : List (String × ℚ)) (ds₁ : List String)
    (d : String) (n : ℕ) (ha : ∀ t ∈ txs, 0 ≤ t.amount) :
    NonnegBal (midState txs nav ds₁ d n) := by
  unfold midState
  exact foldl_applyTx_nonnegBal _ _ _ _ (simUpTo_nonnegBal txs nav ds₁ ha)
    (fun t ht => ha t (List.mem_of_mem_filter (List.take_subset _ _ ht)))

/-- Claim C4: with the data model's non-negative transaction amounts, no
user's share balance is ever negative at any day boundary or in the middle
of any day of the simulation, and a withdrawal priced at at least as many
shares as the user owns zeroes the balance exactly, removing exactly the
user's old balance from `total_shares`. -/
theorem claim4_nonneg_balances (rtxs : List RawTxn) (nav : List (String × ℚ))
    (hamt : ∀ t ∈ rtxs, 0 ≤ t.amount.getD 0) :
    (∀ ds₁ ds₂, allDates (rtxs.map coerceTx) nav = ds₁ ++ ds₂ →
      ∀ u, 0 ≤ dGet (simUpTo (rtxs.map coerceTx) nav ds₁).keys
        (simUpTo (rtxs.map coerceTx) nav ds₁).bal u)
    ∧ (∀ ds₁ d ds₂ n, allDates (rtxs.map coerceTx) nav = ds₁ ++ d :: ds₂ →
      ∀ u, 0 ≤ dGet (midState (rtxs.map coerceTx) nav ds₁ d n).keys
        (midState (rtxs.map coerceTx) nav ds₁ d n).bal u)
    ∧ (∀ (s : SimState) (p : NF) (d : String) (t : Txn), t.ttype = "Withdrawal" →
      dGet s.keys s.bal t.user ≤ sharesFor t.amount p →
      dGet (applyTx d p s t).keys (applyTx d p s t).bal t.user = 0
      ∧ (applyTx d p s t).totalShares = s.totalShares - dGet s.keys s.bal t.user) := by
  have ha : ∀ t ∈ rtxs.map coerceTx, 0 ≤ t.amount := by
    intro t ht
    obtain ⟨r, hr, rfl⟩ := List.mem_map.1 ht
    exact hamt r hr
  refine ⟨?_, ?_, ?_⟩
  · intro ds₁ _ _ u
    exact simUpTo_nonnegBal _ nav ds₁ ha u
  · intro ds₁ d _ n _ u
    exact midState_nonnegBal _ nav ds₁ d n ha u
  · intro s p d t hty hover
    have hne : ¬ (t.ttype = "Deposit") := by
      rw [hty]; simp
    have hmin : min (sharesFor t.amount p) (dGet s.keys s.bal t.user)
        = dGet s.keys s.bal t.user := min_eq_right hover
    constructor
    · simp only [applyTx, if_neg hne, if_pos hty]
      rw [dGet_update]
      simp [hmin]
    · simp only [applyTx, if_neg hne, if_pos hty]
      rw [hmin]

theorem claim2_witness :
    allDates (c2txs.map coerceTx) c2nav = ["2025-05-18"] ++ []
    ∧ (∑ u ∈ (simUpTo (c2txs.map coerceTx) c2nav ["2025-05-18"]).keys,
        (simUpTo (c2txs.map coerceTx) c2nav ["2025-05-18"]).bal u
      = (simUpTo (c2txs.map coerceTx) c2nav ["2025-05-18"]).totalShares) :=
  ⟨by
    simp [allDates, c2txs, c2nav, coerceTx, List.insertionSort, List.orderedInsert,
      List.dedup_cons_of_mem, List.dedup_cons_of_not_mem],
   claim2_share_conservation c2txs c2nav ["2025-05-18"] [] (by
    simp [allDates, c2txs, c2nav, coerceTx, List.insertionSort, List.orderedInsert,
      List.dedup_cons_of_mem, List.dedup_cons_of_not_mem])⟩

theorem claim4_witness :
    (∀ t ∈ c4txs, 0 ≤ t.amount.getD 0)
    ∧ allDates (c4txs.map coerceTx) c4nav = [] ++ "2025-05-18" :: []
    ∧ 0 ≤ dGet (midState (c4txs.map coerceTx) c4nav [] "2025-05-18" 2).keys
        (midState (c4txs.map coerceTx) c4nav [] "2025-05-18" 2).bal "alice" :=
  ⟨by
    intro t ht
    fin_cases ht <;> simp [c4txs],
   by
    simp [allDates, c4txs, c4nav, coerceTx, List.insertionSort, List.orderedInsert,
      List.dedup_cons_of_mem, List.dedup_cons_of_not_mem],
   (claim4_nonneg_balances c4txs c4nav (by
      intro t ht
      fin_cases ht <;> simp [c4txs])).2.1 [] "2025-05-18" [] 2 (by
    simp [allDates, c4txs, c4nav, coerceTx, List.insertionSort, List.orderedInsert,
      List.dedup_cons_of_mem, List.dedup_cons_of_not_mem]) "alice"⟩

/-! ### Bootstrap price -/

/-- Claim C5: whenever total shares outstanding are zero, the intra-day
execution price and the recorded end-of-day `nav_per_share` are both
exactly `1.0` (a number, never NaN), and a deposit processed at such a
price mints exactly `amount` shares — so one unit of currency deposited
with no prior shares outstanding yields exactly one share. -/
theorem claim5_bootstrap_price :
    (∀ (nav : List (String × ℚ)) (s : SimState) (d : String),
      s.totalShares = 0 → dayPrice nav s d = NF.num 1)
    ∧ (∀ (txs : List Txn) (nav : List (String × ℚ)) (s : SimState) (d : String),
      (processDay txs nav s d).totalShares = 0 →
      (processDay txs nav s d).navPerShare d = some (NF.num 1))
    ∧ (∀ (nav : List (String × ℚ)) (s : SimState) (d : String) (t : Txn),
      s.totalShares = 0 → t.ttype = "Deposit" →
      sharesFor t.amount (dayPrice nav s d) = t.amount
      ∧ (applyTx d (dayPrice nav s d) s t).totalShares = s.totalShares + t.amount
      ∧ dGet (applyTx d (dayPrice nav s d) s t).keys
          (applyTx d (dayPrice nav s d) s t).bal t.user
        = dGet s.keys s.bal t.user + t.amount) := by
  have hprice : ∀ (nav : List (String × ℚ)) (s : SimState) (d : String),
      s.totalShares = 0 → dayPrice nav s d = NF.num 1 := by
    intro nav s d h
    simp [dayPrice, h]
  refine ⟨hprice, ?_, ?_⟩
  · intro txs nav s d h
    unfold processDay at h ⊢
    dsimp only at h ⊢
    rw [if_pos rfl, h]
    simp
  · intro nav s d t h ht
    have hp := hprice nav s d h
    have hshares : sharesFor t.amount (dayPrice nav s d) = t.amount := by
      rw [hp]
      simp [sharesFor]
    refine ⟨hshares, ?_, ?_⟩
    · simp only [applyTx, if_pos ht, hshares]
    · simp only [applyTx, if_pos ht, hshares]
      rw [dGet_update]
      simp

theorem claim5_witness :
    (initState []).totalShares = 0
    ∧ (processDay [] [("2025-05-18", (1 : ℚ))] (initState []) "2025-05-18").totalShares = 0
    ∧ dayPrice [("2025-05-18", (1 : ℚ))] (initState []) "2025-05-18" = NF.num 1
    ∧ (processDay [] [("2025-05-18", (1 : ℚ))] (initState []) "2025-05-18").navPerShare
        "2025-05-18" = some (NF.num 1)
    ∧ sharesFor (1 : ℚ)
        (dayPrice [("2025-05-18", (1 : ℚ))] (initState []) "2025-05-18") = 1 :=
  ⟨rfl,
   by simp [processDay, initState],
   claim5_bootstrap_price.1 [("2025-05-18", (1 : ℚ))] (initState []) "2025-05-18" rfl,
   claim5_bootstrap_price.2.1 [] [("2025-05-18", (1 : ℚ))] (initState []) "2025-05-18"
     (by simp [processDay, initState]),
   (claim5_bootstrap_price.2.2 [("2025-05-18", (1 : ℚ))] (initState []) "2025-05-18"
     ⟨"2025-05-18", "alice", "Deposit", 1⟩ rfl rfl).1⟩

/-! ### Intra-day pricing -/

lemma foldl_applyTx_ledger (d : String) (p : NF) :
    ∀ (l : List Txn) (s : SimState),
      ∃ m, (l.foldl (applyTx d p) s).ledger = s.ledger ++ m
        ∧ (∀ e ∈ m, e.navShare = p ∧ e.date = d)
        ∧ m.length = (l.filter fun t =>
            decide (t.ttype = "Deposit" ∨ t.ttype = "Withdrawal")).length
  | [], s => ⟨[], by simp, by simp, by simp⟩
  | t :: l, s => by
    obtain ⟨m, hm, hall, hlen⟩ := foldl_applyTx_ledger d p l (applyTx d p s t)
    by_cases h1 : t.ttype = "Deposit"
    · refine ⟨⟨d, t.user, t.ttype, NF.num t.amount, sharesFor t.amount p, p⟩ :: m, ?_, ?_, ?_⟩
      · rw [List.foldl_cons, hm]
        simp [applyTx, if_pos h1]
      · intro e he
        rcases List.mem_cons.1 he with he | he
        · subst he; exact ⟨rfl, rfl⟩
        · exact hall e he
      · rw [List.filter_cons_of_pos (by simp [h1])]
        simp [hlen]
    · by_cases h2 : t.ttype = "Withdrawal"
      · refine ⟨⟨d, t.user, t.ttype,
          (NF.mulQ (min (sharesFor t.amount p) (dGet s.keys s.bal t.user)) p).neg,
          min (sharesFor t.amount p) (dGet s.keys s.bal t.user), p⟩ :: m, ?_, ?_, ?_⟩
        · rw [List.foldl_cons, hm]
          simp [applyTx, if_neg h1, if_pos h2]
        · intro e he
          rcases List.mem_cons.1 he with he | he
          · subst he; exact ⟨rfl, rfl⟩
          · exact hall e he
        · rw [List.filter_cons_of_pos (by simp [h2])]
          simp [hlen]
      · refine ⟨m, ?_, hall, ?_⟩
        · rw [List.foldl_cons, hm]
          simp [applyTx, if_neg h1, if_neg h2]
        · rw [List.filter_cons_of_neg (by simp [h1, h2]), hlen]

/-- Claim C6: every ledger entry a day appends carries the single
intra-day price computed from `total_shares` before any of that day's
transactions (1.0 when zero); the recorded `nav_per_share[d]` is instead
recomputed from the post-transaction state, and on a concrete input the
two differ (deposit 100 at price 1.0 while the day's NAV is 200 records an
end-of-day price of 2.0). -/
theorem claim6_intraday_price :
    (∀ (txs : List Txn) (nav : List (String × ℚ)) (s : SimState) (d : String),
      ∃ m, (processDay txs nav s d).ledger = s.ledger ++ m
        ∧ (∀ e ∈ m, e.navShare = dayPrice nav s d)
        ∧ (processDay txs nav s d).navPerShare d
          = some (dayPrice nav ((txs.filter fun t => decide (t.date = d)).foldl
              (applyTx d (dayPrice nav s d)) s) d))
    ∧ ((recalculate_fund c6txs c6nav (3/100) (2/100)).navPerShare "2025-05-18"
        = some (NF.num 2)
      ∧ dayPrice c6nav (initState (c6txs.map coerceTx)) "2025-05-18" = NF.num 1
      ∧ some (NF.num 2) ≠ some (NF.num 1)) := by
  constructor
  · intro txs nav s d
    obtain ⟨m, hm, hall, -⟩ :=
      foldl_applyTx_ledger d (dayPrice nav s d) (txs.filter fun t => decide (t.date = d)) s
    refine ⟨m, ?_, fun e he => (hall e he).1, ?_⟩
    · unfold processDay
      dsimp only
      exact hm
    · unfold processDay
      dsimp only
      rw [if_pos rfl]
      rfl
  · refine ⟨?_, ?_, by simp⟩
    · simp [recalculate_fund, computeFund, allDates, c6txs, c6nav, coerceTx,
        List.insertionSort, List.orderedInsert, List.dedup_cons_of_mem,
        List.dedup_cons_of_not_mem, simUpTo, processDay, applyTx, dayPrice, navOf,
        navLookup, sharesFor, initState, dGet, NF.divQ]
      norm_num
    · simp [dayPrice, initState, c6txs, c6nav]

/-! ### Fees -/

/-- Claim C7: for every user in the output,
`withdrawal_fee_amt = user_value * withdraw_fee`,
`profit_fee_amt = max(profit, 0) * profit_fee`, and
`after_fees = user_value - withdrawal_fee_amt - profit_fee_amt`; moreover,
for a non-negative `profit_fee` rate the profit-fee contribution is never a
negative number, even when the user's profit is negative. -/
lemma NF.pymax0_scale_nonneg (x : NF) (pf : ℚ) (hpf : 0 ≤ pf) (q : ℚ)
    (h : (x.pymax0).scale pf = NF.num q) : 0 ≤ q := by
  cases x with
  | nan => simp [NF.pymax0, NF.scale] at h
  | num r =>
    simp [NF.pymax0, NF.scale] at h
    subst h
    exact mul_nonneg (le_max_right _ _) hpf

/-- Claim C7: for every user in the output,
`withdrawal_fee_amt = user_value * withdraw_fee`,
`profit_fee_amt = max(profit, 0) * profit_fee`, and
`after_fees = user_value - withdrawal_fee_amt - profit_fee_amt`; moreover,
for a non-negative `profit_fee` rate the profit-fee contribution is never a
negative number, even when the user's profit is negative. -/
theorem claim7_fees (rtxs : List RawTxn) (nav : List (String × ℚ)) (wf pf : ℚ)
    (u : String) (hu : u ∈ (recalculate_fund rtxs nav wf pf).userKeys) :
    (recalculate_fund rtxs nav wf pf).feeWithdrawal u
      = ((recalculate_fund rtxs nav wf pf).userValue u).scale wf
    ∧ (recalculate_fund rtxs nav wf pf).feeProfit u
      = (((recalculate_fund rtxs nav wf pf).profit u).pymax0).scale pf
    ∧ (recalculate_fund rtxs nav wf pf).afterFees u
      = (((recalculate_fund rtxs nav wf pf).userValue u).sub
          ((recalculate_fund rtxs nav wf pf).feeWithdrawal u)).sub
          ((recalculate_fund rtxs nav wf pf).feeProfit u)
    ∧ (0 ≤ pf → ∀ q, (recalculate_fund rtxs nav wf pf).feeProfit u = NF.num q → 0 ≤ q) := by
  have hkey : (recalculate_fund rtxs nav wf pf).feeProfit u
      = (((recalculate_fund rtxs nav wf pf).profit u).pymax0).scale pf := by
    unfold recalculate_fund computeFund
    by_cases h : allDates (rtxs.map coerceTx) nav = []
    · rw [if_pos h]
      simp [emptyResult, NF.pymax0, NF.scale]
    · rw [if_neg h]
  have hW : (recalculate_fund rtxs nav wf pf).feeWithdrawal u
      = ((recalculate_fund rtxs nav wf pf).userValue u).scale wf := by
    unfold recalculate_fund computeFund
    by_cases h : allDates (rtxs.map coerceTx) nav = []
    · rw [if_pos h]
      simp [emptyResult, NF.scale]
    · rw [if_neg h]
  have hA : (recalculate_fund rtxs nav wf pf).afterFees u
      = (((recalculate_fund rtxs nav wf pf).userValue u).sub
          ((recalculate_fund rtxs nav wf pf).feeWithdrawal u)).sub
          ((recalculate_fund rtxs nav wf pf).feeProfit u) := by
    unfold recalculate_fund computeFund
    by_cases h : allDates (rtxs.map coerceTx) nav = []
    · rw [if_pos h]
      simp [emptyResult, NF.sub]
    · rw [if_neg h]
  refine ⟨hW, hkey, hA, ?_⟩
  intro hpf q hq
  rw [hkey] at hq
  exact NF.pymax0_scale_nonneg _ pf hpf q hq

theorem claim7_witness :
    "alice" ∈ (recalculate_fund c7txs c7nav (3/100) (2/100)).userKeys
    ∧ (recalculate_fund c7txs c7nav (3/100) (2/100)).feeWithdrawal "alice"
      = ((recalculate_fund c7txs c7nav (3/100) (2/100)).userValue "alice").scale (3/100) :=
  ⟨by
    simp [recalculate_fund, computeFund, allDates, c7txs, c7nav, coerceTx,
      List.insertionSort, List.orderedInsert, List.dedup_cons_of_mem,
      List.dedup_cons_of_not_mem, simUpTo, processDay, applyTx, dayPrice, navOf,
      navLookup, sharesFor, initState, dGet],
   (claim7_fees c7txs c7nav (3/100) (2/100) "alice" (by
    simp [recalculate_fund, computeFund, allDates, c7txs, c7nav, coerceTx,
      List.insertionSort, List.orderedInsert, List.dedup_cons_of_mem,
      List.dedup_cons_of_not_mem, simUpTo, processDay, applyTx, dayPrice, navOf,
      navLookup, sharesFor, initState, dGet])).1⟩

/-! ### Projections of the non-empty branch of computeFund -/

lemma computeFund_userKeys (txs : List Txn) (nav : List (String × ℚ)) (wf pf : ℚ)
    (h : ¬ allDates txs nav = []) :
    (computeFund txs nav wf pf).userKeys = (simUpTo txs nav (allDates txs nav)).keys := by
  unfold computeFund
  rw [if_neg h]

lemma computeFund_navPerShare (txs : List Txn) (nav : List (String × ℚ)) (wf pf : ℚ)
    (h : ¬ allDates txs nav = []) :
    (computeFund txs nav wf pf).navPerShare
      = (simUpTo txs nav (allDates txs nav)).navPerShare := by
  unfold computeFund
  rw [if_neg h]

lemma computeFund_ledger (txs : List Txn) (nav : List (String × ℚ)) (wf pf : ℚ)
    (h : ¬ allDates txs nav = []) :
    (computeFund txs nav wf pf).ledger = (simUpTo txs nav (allDates txs nav)).ledger := by
  unfold computeFund
  rw [if_neg h]

lemma computeFund_userShares (txs : List Txn) (nav : List (String × ℚ)) (wf pf : ℚ)
    (h : ¬ allDates txs nav = []) (u : String) :
    (computeFund txs nav wf pf).userShares u
      = dGet (simUpTo txs nav (allDates txs nav)).keys
          (simUpTo txs nav (allDates txs nav)).bal u := by
  unfold computeFund
  rw [if_neg h]

lemma computeFund_userValue (txs : List Txn) (nav : List (String × ℚ)) (wf pf : ℚ)
    (h : ¬ allDates txs nav = []) (u : String) :
    (computeFund txs nav wf pf).userValue u
      = NF.mulQ ((computeFund txs nav wf pf).userShares u)
          (((simUpTo txs nav (allDates txs nav)).navPerShare
            ((allDates txs nav).getLastD "")).getD (NF.num 1)) := by
  unfold computeFund
  rw [if_neg h]

lemma computeFund_profit (txs : List Txn) (nav : List (String × ℚ)) (wf pf : ℚ)
    (h : ¬ allDates txs nav = []) (u : String) :
    (computeFund txs nav wf pf).profit u
      = (((computeFund txs nav wf pf).userValue u).subQ (depositSum txs u)).addQ
          (withdrawalSum txs u) := by
  unfold computeFund
  rw [if_neg h]

/-! ### The profit aggregation bug -/

/-- Claim C1 fails on the code: `withdrawal_sum` is built from the input
transactions, whose Withdrawal amounts are positive, and is then negated
(line 129), so the code adds a negative number where the spec prescribes
adding the withdrawals back.  Depositing 100 and withdrawing the same 100
at an unchanged price of 1.0 ends with value 0 and code profit −200,
whereas the spec formula (`profitSpec`) gives 0. -/
theorem claim1_profit_code_bug :
    (recalculate_fund c1txs c1nav (3/100) (2/100)).profit "alice" = NF.num (-200)
    ∧ profitSpec (recalculate_fund c1txs c1nav (3/100) (2/100)) (c1txs.map coerceTx)
        "alice" = NF.num 0 := by
  have hAll : allDates (c1txs.map coerceTx) c1nav = ["2025-05-18", "2025-05-19"] := by
    simp [allDates, c1txs, c1nav, coerceTx, List.insertionSort, List.orderedInsert,
      List.dedup_cons_of_mem, List.dedup_cons_of_not_mem] <;> decide
  have hne : ¬ allDates (c1txs.map coerceTx) c1nav = [] := by
    rw [hAll]; simp
  have hbal : dGet
      (simUpTo (c1txs.map coerceTx) c1nav (allDates (c1txs.map coerceTx) c1nav)).keys
      (simUpTo (c1txs.map coerceTx) c1nav (allDates (c1txs.map coerceTx) c1nav)).bal
      "alice" = 0 := by
    rw [hAll]
    simp [simUpTo, processDay, applyTx, dayPrice, navOf, navLookup, sharesFor,
      initState, dGet, NF.divQ, NF.mulQ, NF.neg, Function.update, c1txs, c1nav, coerceTx]
  have hnps : (simUpTo (c1txs.map coerceTx) c1nav
        (allDates (c1txs.map coerceTx) c1nav)).navPerShare
      ((allDates (c1txs.map coerceTx) c1nav).getLastD "") = some (NF.num 1) := by
    rw [hAll]
    simp [simUpTo, processDay, applyTx, dayPrice, navOf, navLookup, sharesFor,
      initState, dGet, NF.divQ, NF.mulQ, NF.neg, Function.update, c1txs, c1nav, coerceTx]
  have hval : (recalculate_fund c1txs c1nav (3/100) (2/100)).userValue "alice"
      = NF.num 0 := by
    unfold recalculate_fund
    rw [computeFund_userValue _ _ _ _ hne, computeFund_userShares _ _ _ _ hne, hbal, hnps]
    simp [NF.mulQ]
  have hdep : depositSum (c1txs.map coerceTx) "alice" = 100 := by
    simp [depositSum, c1txs, coerceTx]
  have hwd : withdrawalSum (c1txs.map coerceTx) "alice" = -100 := by
    simp [withdrawalSum, c1txs, coerceTx]
  constructor
  · have : (recalculate_fund c1txs c1nav (3/100) (2/100)).profit "alice"
        = (((recalculate_fund c1txs c1nav (3/100) (2/100)).userValue "alice").subQ
            (depositSum (c1txs.map coerceTx) "alice")).addQ
            (withdrawalSum (c1txs.map coerceTx) "alice") := by
      unfold recalculate_fund
      exact computeFund_profit _ _ _ _ hne "alice"
    rw [this, hval, hdep, hwd]
    simp [NF.subQ, NF.sub, NF.addQ]
    norm_num
  · unfold profitSpec
    rw [hval, hdep]
    simp [NF.subQ, NF.sub, NF.addQ, c1txs, coerceTx]

/-! ### Withdrawal processing -/

/-- Claim C3 (amended): a Withdrawal of requested amount `a` computes
`shares = a / price` (0 when the price is not a positive number), clamps to
`min(shares, balance)` — never rejecting or erroring — recomputes the
actual paid-out amount as `shares * price`, decrements `total_shares` and
the user's balance by `shares`, and appends a ledger entry whose Amount is
`-actual`; that recorded Amount is a non-positive number whenever the
intra-day price is a non-negative number, but it is NaN — not a negative
value — when the price is NaN (missing NAV with shares outstanding). -/
theorem claim3_withdrawal_amended (s : SimState) (p : NF) (d : String) (t : Txn)
    (hty : t.ttype = "Withdrawal") :
    (applyTx d p s t).totalShares
      = s.totalShares - min (sharesFor t.amount p) (dGet s.keys s.bal t.user)
    ∧ dGet (applyTx d p s t).keys (applyTx d p s t).bal t.user
      = dGet s.keys s.bal t.user - min (sharesFor t.amount p) (dGet s.keys s.bal t.user)
    ∧ (applyTx d p s t).ledger = s.ledger
        ++ [⟨d, t.user, "Withdrawal",
             (NF.mulQ (min (sharesFor t.amount p) (dGet s.keys s.bal t.user)) p).neg,
             min (sharesFor t.amount p) (dGet s.keys s.bal t.user), p⟩]
    ∧ (∀ q, p = NF.num q → 0 ≤ q → 0 ≤ t.amount → 0 ≤ dGet s.keys s.bal t.user →
        ∃ r, (NF.mulQ (min (sharesFor t.amount p) (dGet s.keys s.bal t.user)) p).neg
          = NF.num r ∧ r ≤ 0)
    ∧ (p = NF.nan →
        (NF.mulQ (min (sharesFor t.amount p) (dGet s.keys s.bal t.user)) p).neg
          = NF.nan) := by
  have hne : ¬ (t.ttype = "Deposit") := by rw [hty]; simp
  refine ⟨?_, ?_, ?_, ?_, ?_⟩
  · simp only [applyTx, if_neg hne, if_pos hty]
  · simp only [applyTx, if_neg hne, if_pos hty]
    rw [dGet_update]
    simp
  · simp only [applyTx, if_neg hne, if_pos hty]
    rw [hty]
  · rintro q rfl hq ha hb
    refine ⟨-(min (sharesFor t.amount (NF.num q)) (dGet s.keys s.bal t.user) * q), ?_, ?_⟩
    · simp [NF.mulQ, NF.neg]
    · have hsh : 0 ≤ min (sharesFor t.amount (NF.num q)) (dGet s.keys s.bal t.user) :=
        le_min (sharesFor_nonneg _ _ ha) hb
      have := mul_nonneg hsh hq
      linarith
  · rintro rfl
    simp [NF.mulQ, NF.neg]

theorem claim3_witness :
    ((⟨"2025-05-18", "alice", "Withdrawal", (50 : ℚ)⟩ : Txn)).ttype = "Withdrawal"
    ∧ (applyTx "2025-05-18" (NF.num 1) (initState [])
        ⟨"2025-05-18", "alice", "Withdrawal", (50 : ℚ)⟩).totalShares
      = (initState []).totalShares
        - min (sharesFor 50 (NF.num 1)) (dGet (initState []).keys (initState []).bal "alice") :=
  ⟨rfl, (claim3_withdrawal_amended (initState []) (NF.num 1) "2025-05-18"
    ⟨"2025-05-18", "alice", "Withdrawal", (50 : ℚ)⟩ rfl).1⟩

/-- Claim C3, as stated, is false on the code: withdrawing on a date with
no NAV entry while shares are outstanding records a ledger Amount of NaN
(`-(0 * NaN)`), which is not a negative value. -/
theorem claim3_counterexample :
    (recalculate_fund c3txs c3nav (3/100) (2/100)).ledger
      = [⟨"2025-05-18", "alice", "Deposit", NF.num 100, 100, NF.num 1⟩,
         ⟨"2025-05-19", "alice", "Withdrawal", NF.nan, 0, NF.nan⟩]
    ∧ NF.isNeg NF.nan = false := by
  constructor
  · have hAll : allDates (c3txs.map coerceTx) c3nav = ["2025-05-18", "2025-05-19"] := by
      simp [allDates, c3txs, c3nav, coerceTx, List.insertionSort, List.orderedInsert,
        List.dedup_cons_of_mem, List.dedup_cons_of_not_mem] <;> decide
    have hne : ¬ allDates (c3txs.map coerceTx) c3nav = [] := by
      rw [hAll]; simp
    unfold recalculate_fund
    rw [computeFund_ledger _ _ _ _ hne, hAll]
    simp [simUpTo, processDay, applyTx, dayPrice, navOf, navLookup, sharesFor,
      initState, dGet, NF.divQ, NF.mulQ, NF.neg, Function.update, c3txs, c3nav, coerceTx]
  · rfl

/-! ### Purity and the in-place Amount coercion -/

/-- Claim C8 (amended): the engine is deterministic — in particular
rerunning it on the transactions as left behind by a previous call (the
in-place coerced `Amount` column) gives identical output — but the call
does not leave its `transactions` argument unchanged: line 88 rewrites the
`Amount` column, and the argument survives intact exactly when every
Amount cell was already numeric. -/
theorem claim8_purity_amended :
    (∀ (rtxs : List RawTxn) (nav : List (String × ℚ)) (wf pf : ℚ),
      recalculate_fund (mutatedTransactions rtxs) nav wf pf
        = recalculate_fund rtxs nav wf pf)
    ∧ (∀ rtxs : List RawTxn,
      mutatedTransactions rtxs = rtxs ↔ ∀ t ∈ rtxs, t.amount.isSome = true) := by
  constructor
  · intro rtxs nav wf pf
    unfold recalculate_fund
    have hmap : (mutatedTransactions rtxs).map coerceTx = rtxs.map coerceTx := by
      unfold mutatedTransactions
      rw [List.map_map]
      apply List.map_congr_left
      intro t _
      cases t with
      | mk dt u ty a => cases a <;> simp [coerceTx, Function.comp]
    rw [hmap]
  · intro rtxs
    induction rtxs with
    | nil => simp [mutatedTransactions]
    | cons t l ih =>
      cases t with
      | mk dt u ty a =>
        cases a with
        | none =>
          simp only [mutatedTransactions, List.map_cons] at ih ⊢
          simp [ih]
        | some q =>
          simp only [mutatedTransactions, List.map_cons] at ih ⊢
          simp [ih]

/-- Claim C8, as stated, is false on the code: a transactions argument
whose Amount cell is non-numeric (NaN) is changed by the call — line 88
replaces it with `0.0`. -/
theorem claim8_counterexample :
    mutatedTransactions [⟨"2025-05-18", "alice", "Deposit", none⟩]
      ≠ [⟨"2025-05-18", "alice", "Deposit", none⟩] := by
  simp [mutatedTransactions]

/-! ### NaN propagation for missing NAV -/

lemma applyTx_totalShares_mono_nan (d : String) (s : SimState) (t : Txn) :
    s.totalShares ≤ (applyTx d NF.nan s t).totalShares := by
  unfold applyTx
  by_cases h1 : t.ttype = "Deposit"
  · simp [if_pos h1, sharesFor]
  · by_cases h2 : t.ttype = "Withdrawal"
    · simp only [if_neg h1, if_pos h2]
      have : min (sharesFor t.amount NF.nan) (dGet s.keys s.bal t.user) ≤ 0 := by
        simp [sharesFor]
      linarith
    · simp [if_neg h1, if_neg h2]

lemma foldl_applyTx_totalShares_mono_nan (d : String) :
    ∀ (l : List Txn) (s : SimState),
      s.totalShares ≤ (l.foldl (applyTx d NF.nan) s).totalShares
  | [], _ => le_refl _
  | t :: l, s =>
    le_trans (applyTx_totalShares_mono_nan d s t)
      (foldl_applyTx_totalShares_mono_nan d l (applyTx d NF.nan s t))

/-- Claim C9: on a date with transactions but no NAV entry, while total
shares are positive, the missing NAV is treated as NaN and propagates:
the intra-day price is NaN, each of the day's Deposit/Withdrawal
transactions still appends a ledger entry (none are skipped, none raise)
whose recorded price is NaN, and the recorded `nav_per_share` for the date
is NaN rather than a fallback value. -/
theorem claim9_nan_propagation (txs : List Txn) (nav : List (String × ℚ)) (s : SimState)
    (d : String) (hmiss : navLookup nav d = none) (hpos : 0 < s.totalShares) :
    dayPrice nav s d = NF.nan
    ∧ (∃ m, (processDay txs nav s d).ledger = s.ledger ++ m
        ∧ (∀ e ∈ m, e.navShare = NF.nan)
        ∧ m.length = ((txs.filter fun t => decide (t.date = d)).filter fun t =>
            decide (t.ttype = "Deposit" ∨ t.ttype = "Withdrawal")).length)
    ∧ (processDay txs nav s d).navPerShare d = some NF.nan := by
  have hnavOf : navOf nav d = NF.nan := by simp [navOf, hmiss]
  have hprice : dayPrice nav s d = NF.nan := by
    simp [dayPrice, if_pos hpos, hnavOf, NF.divQ]
  refine ⟨hprice, ?_, ?_⟩
  · obtain ⟨m, hm, hall, hlen⟩ :=
      foldl_applyTx_ledger d (dayPrice nav s d) (txs.filter fun t => decide (t.date = d)) s
    refine ⟨m, ?_, ?_, hlen⟩
    · exact hm
    · intro e he
      rw [(hall e he).1, hprice]
  · unfold processDay
    dsimp only
    rw [if_pos rfl]
    have hpos₂ : 0 < ((txs.filter fun t => decide (t.date = d)).foldl
        (applyTx d (dayPrice nav s d)) s).totalShares := by
      have := foldl_applyTx_totalShares_mono_nan d
        (txs.filter fun t => decide (t.date = d)) s
      rw [hprice]
      linarith
    rw [if_pos hpos₂, hnavOf]
    rfl

theorem claim9_witness :
    navLookup c9nav "2025-05-19" = none
    ∧ 0 < (simUpTo (c9txs.map coerceTx) c9nav ["2025-05-18"]).totalShares
    ∧ dayPrice c9nav (simUpTo (c9txs.map coerceTx) c9nav ["2025-05-18"]) "2025-05-19"
      = NF.nan :=
  ⟨by simp [navLookup, c9nav],
   by
    simp [simUpTo, processDay, applyTx, dayPrice, navOf, navLookup, sharesFor,
      initState, dGet, NF.divQ, Function.update, c9txs, c9nav, coerceTx],
   (claim9_nan_propagation (c9txs.map coerceTx) c9nav
      (simUpTo (c9txs.map coerceTx) c9nav ["2025-05-18"]) "2025-05-19"
      (by simp [navLookup, c9nav])
      (by
        simp [simUpTo, processDay, applyTx, dayPrice, navOf, navLookup, sharesFor,
          initState, dGet, NF.divQ, Function.update, c9txs, c9nav, coerceTx])).1⟩

/-! ### Simulation relation for the zero-share deposit claim -/

lemma SimRel.trans {s t u : SimState} (h1 : SimRel s t) (h2 : SimRel t u) : SimRel s u :=
  ⟨h2.1.trans h1.1, fun v => (h2.2.1 v).trans (h1.2.1 v), h2.2.2.trans h1.2.2⟩

lemma sharesFor_eq_zero_of_not_isPos (amt : ℚ) (p : NF) (hp : ¬ (p.isPos = true)) :
    sharesFor amt p = 0 := by
  cases p with
  | nan => rfl
  | num q =>
    have hq : ¬ 0 < q := by simpa [NF.isPos] using hp
    simp [sharesFor, hq]

lemma applyTx_rel (d : String) (p : NF) (t : Txn) {s s' : SimState}
    (h : SimRel s s') : SimRel (applyTx d p s t) (applyTx d p s' t) := by
  obtain ⟨h1, h2, h3⟩ := h
  unfold applyTx
  by_cases hd : t.ttype = "Deposit"
  · refine ⟨?_, ?_, ?_⟩
    · simp only [if_pos hd]
      rw [h1]
    · intro v
      simp only [if_pos hd]
      rw [dGet_update, dGet_update, h2]
      split
      · rfl
      · exact h2 v
    · simp only [if_pos hd]
      exact h3
  · by_cases hw : t.ttype = "Withdrawal"
    · refine ⟨?_, ?_, ?_⟩
      · simp only [if_neg hd, if_pos hw]
        rw [h1, h2]
      · intro v
        simp only [if_neg hd, if_pos hw]
        rw [dGet_update, dGet_update, h2]
        split
        · rfl
        · exact h2 v
      · simp only [if_neg hd, if_pos hw]
        exact h3
    · simpa [if_neg hd, if_neg hw] using ⟨h1, h2, h3⟩

lemma foldl_applyTx_rel (d : String) (p : NF) :
    ∀ (l : List Txn) {s s' : SimState}, SimRel s s' →
      SimRel (l.foldl (applyTx d p) s) (l.foldl (applyTx d p) s')
  | [], _, _, h => h
  | t :: l, s, s', h => foldl_applyTx_rel d p l (applyTx_rel d p t h)

lemma dayPrice_rel {s s' : SimState} (h : SimRel s s') (nav : List (String × ℚ))
    (d : String) : dayPrice nav s' d = dayPrice nav s d := by
  unfold dayPrice
  rw [h.1]

lemma processDay_rel (nav : List (String × ℚ)) (d' : String) (txs txs' : List Txn)
    {s s' : SimState} (h : SimRel s s')
    (hf : txs'.filter (fun t => decide (t.date = d'))
        = txs.filter (fun t => decide (t.date = d'))) :
    SimRel (processDay txs nav s d') (processDay txs' nav s' d') := by
  unfold processDay
  rw [hf, dayPrice_rel h]
  have hmid : SimRel ((txs.filter fun t => decide (t.date = d')).foldl
      (applyTx d' (dayPrice nav s d')) s)
      ((txs.filter fun t => decide (t.date = d')).foldl
      (applyTx d' (dayPrice nav s d')) s') :=
    foldl_applyTx_rel _ _ _ h
  refine ⟨hmid.1, hmid.2.1, ?_⟩
  funext x
  dsimp only
  rw [hmid.1, hmid.2.2]

lemma applyTx_zero_deposit_rel (d : String) (p : NF) (t : Txn) (s : SimState)
    (ht : t.ttype = "Deposit") (hp : ¬ (p.isPos = true)) :
    SimRel s (applyTx d p s t) := by
  have h0 : sharesFor t.amount p = 0 := sharesFor_eq_zero_of_not_isPos _ _ hp
  unfold applyTx
  rw [if_pos ht]
  refine ⟨?_, ?_, rfl⟩
  · dsimp only
    rw [h0, add_zero]
  · intro v
    rw [dGet_update]
    split
    · rename_i hv
      subst hv
      rw [h0, add_zero]
    · rfl

lemma foldl_processDay_rel (nav : List (String × ℚ)) (txs txs' : List Txn) :
    ∀ (ds : List String) {s s' : SimState}, SimRel s s' →
      (∀ d' ∈ ds, txs'.filter (fun t => decide (t.date = d'))
        = txs.filter (fun t => decide (t.date = d'))) →
      SimRel (ds.foldl (processDay txs nav) s) (ds.foldl (processDay txs' nav) s')
  | [], _, _, h, _ => h
  | d' :: ds, s, s', h, hf =>
    foldl_processDay_rel nav txs txs' ds
      (processDay_rel nav d' txs txs' h (hf d' (by simp)))
      (fun x hx => hf x (by simp [hx]))

lemma applyTx_ledger_mono (d : String) (p : NF) (s : SimState) (t : Txn)
    {x : LedgerEntry} (hx : x ∈ s.ledger) : x ∈ (applyTx d p s t).ledger := by
  unfold applyTx
  by_cases h1 : t.ttype = "Deposit"
  · simp [if_pos h1, hx]
  · by_cases h2 : t.ttype = "Withdrawal"
    · simp [if_neg h1, if_pos h2, hx]
    · simpa [if_neg h1, if_neg h2] using hx

lemma foldl_applyTx_ledger_mono (d : String) (p : NF) :
    ∀ (l : List Txn) (s : SimState) {x : LedgerEntry}, x ∈ s.ledger →
      x ∈ (l.foldl (applyTx d p) s).ledger
  | [], _, _, hx => hx
  | t :: l, s, _, hx =>
    foldl_applyTx_ledger_mono d p l (applyTx d p s t) (applyTx_ledger_mono d p s t hx)

lemma processDay_ledger_mono (txs : List Txn) (nav : List (String × ℚ)) (s : SimState)
    (d : String) {x : LedgerEntry} (hx : x ∈ s.ledger) :
    x ∈ (processDay txs nav s d).ledger := by
  unfold processDay
  exact foldl_applyTx_ledger_mono _ _ _ _ hx

lemma foldl_processDay_ledger_mono (txs : List Txn) (nav : List (String × ℚ)) :
    ∀ (ds : List String) (s : SimState) {x : LedgerEntry}, x ∈ s.ledger →
      x ∈ (ds.foldl (processDay txs nav) s).ledger
  | [], _, _, hx => hx
  | d :: ds, s, _, hx =>
    foldl_processDay_ledger_mono txs nav ds (processDay txs nav s d)
      (processDay_ledger_mono txs nav s d hx)

lemma allDates_nodup (txs : List Txn) (nav : List (String × ℚ)) :
    (allDates txs nav).Nodup := by
  unfold allDates
  exact ((List.perm_insertionSort _ _).nodup_iff).2 (List.nodup_dedup _)

lemma allDates_mem (txs : List Txn) (nav : List (String × ℚ)) (x : String) :
    x ∈ allDates txs nav ↔ x ∈ nav.map Prod.fst ++ txs.map Txn.date := by
  unfold allDates
  rw [List.mem_insertionSort, List.mem_dedup]

lemma allDates_sorted (txs : List Txn) (nav : List (String × ℚ)) :
    (allDates txs nav).Sorted (· ≤ ·) :=
  List.sorted_insertionSort _ _

lemma allDates_append_of_mem (txs : List Txn) (nav : List (String × ℚ)) (e : Txn)
    (h : e.date ∈ allDates txs nav) :
    allDates (txs ++ [e]) nav = allDates txs nav := by
  have hmem : e.date ∈ nav.map Prod.fst ++ txs.map Txn.date := (allDates_mem _ _ _).1 h
  refine List.eq_of_perm_of_sorted
    (List.perm_of_nodup_nodup_toFinset_eq (allDates_nodup _ _) (allDates_nodup _ _) ?_)
    (allDates_sorted _ _) (allDates_sorted _ _)
  ext x
  simp only [List.mem_toFinset, allDates_mem, List.map_append, List.map_cons,
    List.map_nil, List.mem_append, List.mem_singleton, List.mem_cons] at hmem ⊢
  constructor
  · rintro (hx | hx | hx)
    · exact Or.inl hx
    · exact Or.inr hx
    · rcases hx with rfl | hx
      · exact hmem
      · cases hx
  · rintro (hx | hx)
    · exact Or.inl hx
    · exact Or.inr (Or.inl hx)

lemma NF.subQ_addQ_shift (x : NF) (dq w a : ℚ) :
    (x.subQ (dq + a)).addQ w = ((x.subQ dq).addQ w).subQ a := by
  cases x <;> simp [NF.subQ, NF.sub, NF.addQ] <;> ring

lemma depositSum_append_deposit (txs : List Txn) (e : Txn) (hty : e.ttype = "Deposit") :
    depositSum (txs ++ [e]) e.user = depositSum txs e.user + e.amount := by
  unfold depositSum
  rw [List.filter_append]
  simp [hty]

lemma withdrawalSum_append_deposit (txs : List Txn) (e : Txn)
    (hty : e.ttype = "Deposit") (u : String) :
    withdrawalSum (txs ++ [e]) u = withdrawalSum txs u := by
  unfold withdrawalSum
  rw [List.filter_append]
  have hne : ¬ (e.ttype = "Withdrawal") := by rw [hty]; simp
  simp [hne]

lemma processDay_rel_extra (nav : List (String × ℚ)) (d : String) (txs txs' : List Txn)
    (e : Txn) {s s' : SimState} (h : SimRel s s')
    (hf : txs'.filter (fun t => decide (t.date = d))
        = txs.filter (fun t => decide (t.date = d)) ++ [e])
    (hty : e.ttype = "Deposit") (hp : ¬ ((dayPrice nav s d).isPos = true)) :
    SimRel (processDay txs nav s d) (processDay txs' nav s' d)
    ∧ (⟨d, e.user, "Deposit", NF.num e.amount, 0, dayPrice nav s d⟩ : LedgerEntry)
        ∈ (processDay txs' nav s' d).ledger := by
  simp only [processDay]
  rw [hf, dayPrice_rel h, List.foldl_append]
  have hmid : SimRel ((txs.filter fun t => decide (t.date = d)).foldl
        (applyTx d (dayPrice nav s d)) s)
      ((txs.filter fun t => decide (t.date = d)).foldl (applyTx d (dayPrice nav s d)) s') :=
    foldl_applyTx_rel _ _ _ h
  have hzero : SimRel
      ((txs.filter fun t => decide (t.date = d)).foldl (applyTx d (dayPrice nav s d)) s')
      (applyTx d (dayPrice nav s d)
        ((txs.filter fun t => decide (t.date = d)).foldl (applyTx d (dayPrice nav s d)) s')
        e) :=
    applyTx_zero_deposit_rel d (dayPrice nav s d) e _ hty hp
  have hrel2 : SimRel
      ((txs.filter fun t => decide (t.date = d)).foldl (applyTx d (dayPrice nav s d)) s)
      (([e]).foldl (applyTx d (dayPrice nav s d))
        ((txs.filter fun t => decide (t.date = d)).foldl (applyTx d (dayPrice nav s d)) s')) := by
    simpa using hmid.trans hzero
  constructor
  · refine ⟨hrel2.1, hrel2.2.1, ?_⟩
    funext x
    dsimp only
    rw [hrel2.1, hrel2.2.2]
  · have h0 : sharesFor e.amount (dayPrice nav s d) = 0 :=
      sharesFor_eq_zero_of_not_isPos _ _ hp
    simp only [List.foldl_cons, List.foldl_nil]
    unfold applyTx
    rw [if_pos hty]
    dsimp only
    rw [h0, hty]
    simp

/-- Claim C10: a Deposit processed on a date whose intra-day price is not a
positive number (NAV recorded as 0 with shares outstanding, or missing NAV
giving a NaN price) mints exactly 0 shares and changes no share balance,
yet its full positive amount is still appended to the share ledger and
counted in the user's `deposit_sum`, so appending such a deposit lowers
the user's reported profit by exactly its amount. -/
theorem claim10_zero_share_deposit (rtxs : List RawTxn) (nav : List (String × ℚ))
    (wf pf : ℚ) (ds₁ : List String) (d : String) (ds₂ : List String)
    (er : RawTxn) (a : ℚ)
    (hsplit : allDates (rtxs.map coerceTx) nav = ds₁ ++ d :: ds₂)
    (hdate : er.date = d) (hty : er.ttype = "Deposit") (hamt : er.amount = some a)
    (hapos : 0 < a)
    (hnp : ¬ ((dayPrice nav (simUpTo (rtxs.map coerceTx) nav ds₁) d).isPos = true)) :
    (∀ v, (recalculate_fund (rtxs ++ [er]) nav wf pf).userShares v
        = (recalculate_fund rtxs nav wf pf).userShares v)
    ∧ (⟨d, er.user, "Deposit", NF.num a, 0,
          dayPrice nav (simUpTo (rtxs.map coerceTx) nav ds₁) d⟩ : LedgerEntry)
        ∈ (recalculate_fund (rtxs ++ [er]) nav wf pf).ledger
    ∧ depositSum ((rtxs ++ [er]).map coerceTx) er.user
        = depositSum (rtxs.map coerceTx) er.user + a
    ∧ (recalculate_fund (rtxs ++ [er]) nav wf pf).profit er.user
        = ((recalculate_fund rtxs nav wf pf).profit er.user).subQ a := by
  have he_date : (coerceTx er).date = d := by simp [coerceTx, hdate]
  have he_ty : (coerceTx er).ttype = "Deposit" := by simp [coerceTx, hty]
  have he_user : (coerceTx er).user = er.user := rfl
  have he_amt : (coerceTx er).amount = a := by simp [coerceTx, hamt]
  have hmap : (rtxs ++ [er]).map coerceTx = rtxs.map coerceTx ++ [coerceTx er] := by
    simp
  have hd_mem : d ∈ allDates (rtxs.map coerceTx) nav := by
    rw [hsplit]; simp
  have hAllEq : allDates (rtxs.map coerceTx ++ [coerceTx er]) nav
      = allDates (rtxs.map coerceTx) nav :=
    allDates_append_of_mem _ _ _ (by rw [he_date]; exact hd_mem)
  have hnodup : (ds₁ ++ d :: ds₂).Nodup := by
    rw [← hsplit]; exact allDates_nodup _ _
  have hd_not_ds₁ : d ∉ ds₁ := by
    rcases List.nodup_append.1 hnodup with ⟨-, -, hdisj⟩
    intro hd1
    exact hdisj hd1 (List.mem_cons_self d ds₂)
  have hd_not_ds₂ : d ∉ ds₂ := by
    rcases List.nodup_append.1 hnodup with ⟨-, h2, -⟩
    exact (List.nodup_cons.1 h2).1
  have hfilters : ∀ d', d' ≠ d →
      (rtxs.map coerceTx ++ [coerceTx er]).filter (fun t => decide (t.date = d'))
        = (rtxs.map coerceTx).filter (fun t => decide (t.date = d')) := by
    intro d' hd'
    rw [List.filter_append]
    have : (coerceTx er).date ≠ d' := by rw [he_date]; exact fun hh => hd' hh.symm
    simp [this]
  have hfday : (rtxs.map coerceTx ++ [coerceTx er]).filter (fun t => decide (t.date = d))
      = (rtxs.map coerceTx).filter (fun t => decide (t.date = d)) ++ [coerceTx er] := by
    rw [List.filter_append]
    simp [he_date]
  have hrel0 : SimRel (initState (rtxs.map coerceTx))
      (initState (rtxs.map coerceTx ++ [coerceTx er])) := by
    refine ⟨rfl, ?_, rfl⟩
    intro v
    unfold initState dGet
    dsimp only
    split <;> split <;> rfl
  have hrel1 : SimRel (simUpTo (rtxs.map coerceTx) nav ds₁)
      (simUpTo (rtxs.map coerceTx ++ [coerceTx er]) nav ds₁) :=
    foldl_processDay_rel nav _ _ ds₁ hrel0
      (fun d' hd' => hfilters d' (fun he => hd_not_ds₁ (he ▸ hd')))
  obtain ⟨hrel_d, hentry_mid⟩ :=
    processDay_rel_extra nav d (rtxs.map coerceTx) (rtxs.map coerceTx ++ [coerceTx er])
      (coerceTx er) hrel1 hfday he_ty hnp
  have hfilters₂ : ∀ d' ∈ ds₂,
      (rtxs.map coerceTx ++ [coerceTx er]).filter (fun t => decide (t.date = d'))
        = (rtxs.map coerceTx).filter (fun t => decide (t.date = d')) :=
    fun d' hd' => hfilters d' (fun he => hd_not_ds₂ (he ▸ hd'))
  have hfin : SimRel (simUpTo (rtxs.map coerceTx) nav (ds₁ ++ d :: ds₂))
      (simUpTo (rtxs.map coerceTx ++ [coerceTx er]) nav (ds₁ ++ d :: ds₂)) := by
    unfold simUpTo
    rw [List.foldl_append, List.foldl_cons, List.foldl_append, List.foldl_cons]
    exact foldl_processDay_rel nav _ _ ds₂ hrel_d hfilters₂
  have hledger_fin :
      (⟨d, er.user, "Deposit", NF.num a, 0,
        dayPrice nav (simUpTo (rtxs.map coerceTx) nav ds₁) d⟩ : LedgerEntry)
      ∈ (simUpTo (rtxs.map coerceTx ++ [coerceTx er]) nav (ds₁ ++ d :: ds₂)).ledger := by
    unfold simUpTo
    rw [List.foldl_append, List.foldl_cons]
    apply foldl_processDay_ledger_mono
    rw [← he_amt, ← he_user]
    exact hentry_mid
  have hne : ¬ allDates (rtxs.map coerceTx) nav = [] := by
    rw [hsplit]; simp
  have hne' : ¬ allDates (rtxs.map coerceTx ++ [coerceTx er]) nav = [] := by
    rw [hAllEq]; exact hne
  have hshares : ∀ v, (recalculate_fund (rtxs ++ [er]) nav wf pf).userShares v
      = (recalculate_fund rtxs nav wf pf).userShares v := by
    intro v
    unfold recalculate_fund
    rw [hmap, computeFund_userShares _ _ _ _ hne' v, computeFund_userShares _ _ _ _ hne v,
      hAllEq, hsplit]
    exact hfin.2.1 v
  refine ⟨hshares, ?_, ?_, ?_⟩
  · unfold recalculate_fund
    rw [hmap, computeFund_ledger _ _ _ _ hne', hAllEq, hsplit]
    exact hledger_fin
  · rw [hmap, ← he_user, ← he_amt]
    exact depositSum_append_deposit _ _ he_ty
  · unfold recalculate_fund
    rw [hmap, computeFund_profit _ _ _ _ hne' er.user, computeFund_profit _ _ _ _ hne er.user]
    have hval : (computeFund (rtxs.map coerceTx ++ [coerceTx er]) nav wf pf).userValue er.user
        = (computeFund (rtxs.map coerceTx) nav wf pf).userValue er.user := by
      rw [computeFund_userValue _ _ _ _ hne' er.user, computeFund_userValue _ _ _ _ hne er.user,
        computeFund_userShares _ _ _ _ hne' er.user, computeFund_userShares _ _ _ _ hne er.user,
        hAllEq, hsplit]
      rw [hfin.2.1 er.user, hfin.2.2]
    have hds : depositSum (rtxs.map coerceTx ++ [coerceTx er]) er.user
        = depositSum (rtxs.map coerceTx) er.user + a := by
      rw [← he_user, ← he_amt]
      exact depositSum_append_deposit _ _ he_ty
    have hws : withdrawalSum (rtxs.map coerceTx ++ [coerceTx er]) er.user
        = withdrawalSum (rtxs.map coerceTx) er.user :=
      withdrawalSum_append_deposit _ _ he_ty er.user
    rw [hval, hds, hws, NF.subQ_addQ_shift]

theorem claim10_witness :
    allDates (c10txs.map coerceTx) c10nav = ["2025-05-18"] ++ "2025-05-19" :: []
    ∧ ¬ ((dayPrice c10nav (simUpTo (c10txs.map coerceTx) c10nav ["2025-05-18"])
        "2025-05-19").isPos = true)
    ∧ (0 : ℚ) < 30
    ∧ (recalculate_fund (c10txs ++ [c10extra]) c10nav (3/100) (2/100)).profit "bob"
      = ((recalculate_fund c10txs c10nav (3/100) (2/100)).profit "bob").subQ 30 :=
  ⟨by
    simp [allDates, c10txs, c10nav, coerceTx, List.insertionSort, List.orderedInsert,
      List.dedup_cons_of_mem, List.dedup_cons_of_not_mem] <;> decide,
   by
    simp [simUpTo, processDay, applyTx, dayPrice, navOf, navLookup, sharesFor,
      initState, dGet, NF.divQ, NF.isPos, Function.update, c10txs, c10nav, coerceTx],
   by norm_num,
   (claim10_zero_share_deposit c10txs c10nav (3/100) (2/100) ["2025-05-18"] "2025-05-19"
      [] c10extra 30
      (by
        simp [allDates, c10txs, c10nav, coerceTx, List.insertionSort, List.orderedInsert,
          List.dedup_cons_of_mem, List.dedup_cons_of_not_mem] <;> decide)
      rfl rfl rfl (by norm_num)
      (by
        simp [simUpTo, processDay, applyTx, dayPrice, navOf, navLookup, sharesFor,
          initState, dGet, NF.divQ, NF.isPos, Function.update, c10txs, c10nav,
          coerceTx])).2.2.2⟩
